import Mathlib

/-
Shallow embedding of `library/conda.py` (an Ansible module managing conda
environments and packages) and proofs about its reconciliation logic.

Strings are modelled as lists of characters (`Str`); Python's
`str.split(sep)` for a one-character separator is `splitOnChar`.
Python truthiness of an optional string (`None` and `""` are falsy) is
`truthy`.
-/

namespace CondaMod

/-- Strings, modelled as lists of characters. -/
abbrev Str := List Char

/-- Python `s.split(c)` for a single-character separator `c`:
splits at every occurrence of `c`, keeping empty pieces, and
`"".split(c) = [""]`. -/
def splitOnChar (c : Char) : Str → List Str
  | [] => [[]]
  | x :: xs =>
    if x = c then [] :: splitOnChar c xs
    else
      match splitOnChar c xs with
      | [] => [[x]]
      | y :: ys => (x :: y) :: ys

/-- Python truthiness of an optional string: `None` and `""` are falsy. -/
def truthy : Option Str → Bool
  | none => false
  | some s => !s.isEmpty

/-- `PackageSpec`: the parsed form of one package token,
`{'name': ..., 'version': ..., 'build': ...}`. -/
structure PackageSpec where
  name : Str
  version : Option Str
  build : Option Str
deriving DecidableEq

/-- `InstalledPackage`: one record of `conda list` output,
`{'name': ..., 'version': ...}`. -/
structure InstalledPackage where
  name : Str
  version : Str
deriving DecidableEq

/-- `Conda.split_name_version(package_spec, default_version)`:
`name = package_spec; version = default_version; build = None;`
`if '=' in package_spec: splits = package_spec.split('='); name, version = splits[:2];`
`if len(splits) > 2: build = splits[2]`. -/
def split_name_version (package_spec : Str) (default_version : Option Str) : PackageSpec :=
  if ('=' : Char) ∈ package_spec then
    match splitOnChar '=' package_spec with
    | name :: version :: rest =>
        { name := name, version := some version, build := rest.head? }
    | _ =>
        { name := package_spec, version := default_version, build := none }
  else
    { name := package_spec, version := default_version, build := none }

theorem splitOnChar_ne_nil (c : Char) (s : Str) : splitOnChar c s ≠ [] := by
  cases s with
  | nil => simp [splitOnChar]
  | cons x xs =>
    simp only [splitOnChar]
    by_cases h : x = c
    · simp [h]
    · simp only [h, if_false]
      cases splitOnChar c xs <;> simp

theorem splitOnChar_of_not_mem (c : Char) (s : Str) (h : c ∉ s) :
    splitOnChar c s = [s] := by
  induction s with
  | nil => rfl
  | cons x xs ih =>
    simp only [List.mem_cons, not_or] at h
    simp only [splitOnChar, if_neg (Ne.symm h.1), ih h.2]

theorem splitOnChar_append (c : Char) (a b : Str) (h : c ∉ a) :
    splitOnChar c (a ++ c :: b) = a :: splitOnChar c b := by
  induction a with
  | nil => simp [splitOnChar]
  | cons x xs ih =>
    simp only [List.mem_cons, not_or] at h
    simp only [List.cons_append, splitOnChar, if_neg (Ne.symm h.1), List.append_eq, ih h.2]

theorem splitOnChar_length_of_mem (c : Char) (s : Str) (h : c ∈ s) :
    2 ≤ (splitOnChar c s).length := by
  induction s with
  | nil => simp at h
  | cons x xs ih =>
    simp only [splitOnChar]
    by_cases hx : x = c
    · simp only [hx, if_pos rfl, List.length_cons]
      have := splitOnChar_ne_nil c xs
      cases hs : splitOnChar c xs with
      | nil => exact absurd hs this
      | cons y ys => simp
    · have hm : c ∈ xs := by
        rcases List.mem_cons.mp h with h1 | h2
        · exact absurd h1.symm hx
        · exact h2
      have := ih hm
      simp only [if_neg hx]
      cases hs : splitOnChar c xs with
      | nil => exact absurd hs (splitOnChar_ne_nil c xs)
      | cons y ys =>
        rw [hs] at this
        simpa using this

/-- C5: `split_name_version` parses the three token shapes as specified:
`name=version=build` yields all three fields from the token, `name=version`
yields name and version with no build, and a bare `name` yields the name
with the supplied default version and no build. -/
theorem split_name_version_shapes (n v b : Str) (d : Option Str) :
    (('=' : Char) ∉ n → ('=' : Char) ∉ v → ('=' : Char) ∉ b →
      split_name_version (n ++ '=' :: (v ++ '=' :: b)) d
        = ⟨n, some v, some b⟩)
    ∧ (('=' : Char) ∉ n → ('=' : Char) ∉ v →
      split_name_version (n ++ '=' :: v) d = ⟨n, some v, none⟩)
    ∧ (('=' : Char) ∉ n → split_name_version n d = ⟨n, d, none⟩) := by
  refine ⟨fun hn hv hb => ?_, fun hn hv => ?_, fun hn => ?_⟩
  · have hmem : ('=' : Char) ∈ n ++ '=' :: (v ++ '=' :: b) := by
      simp
    rw [split_name_version, if_pos hmem, splitOnChar_append _ _ _ hn,
      splitOnChar_append _ _ _ hv, splitOnChar_of_not_mem _ _ hb]
    rfl
  · have hmem : ('=' : Char) ∈ n ++ '=' :: v := by simp
    rw [split_name_version, if_pos hmem, splitOnChar_append _ _ _ hn,
      splitOnChar_of_not_mem _ _ hv]
    rfl
  · rw [split_name_version, if_neg hn]

/-- C5 witness: the three concrete examples from the specification. -/
theorem split_name_version_shapes_witness :
    split_name_version ("name".toList ++ '=' :: ("1.2".toList ++ '=' :: "b3".toList)) none
      = ⟨"name".toList, some "1.2".toList, some "b3".toList⟩
    ∧ split_name_version ("name".toList ++ '=' :: "1.2".toList) none
      = ⟨"name".toList, some "1.2".toList, none⟩
    ∧ split_name_version "name".toList (some "9.9".toList)
      = ⟨"name".toList, some "9.9".toList, none⟩ :=
  ⟨(split_name_version_shapes "name".toList "1.2".toList "b3".toList none).1
      (by decide) (by decide) (by decide),
   (split_name_version_shapes "name".toList "1.2".toList "b3".toList none).2.1
      (by decide) (by decide),
   (split_name_version_shapes "name".toList "b3".toList "b3".toList
      (some "9.9".toList)).2.2 (by decide)⟩

/-- C6 counterexample: on the empty token the parsed name is empty, so the
claim that the name field is always non-empty fails. -/
theorem split_name_version_empty_name :
    (split_name_version [] none).name = [] := by decide

/-- C6 (amended): the parsed name is empty exactly when the token is empty
or begins with `=`; for every other token (and any default version) the
name field is non-empty. -/
theorem split_name_version_name_empty_iff (s : Str) (d : Option Str) :
    (split_name_version s d).name = [] ↔ (s = [] ∨ s.head? = some '=') := by
  cases s with
  | nil => simp [split_name_version]
  | cons x xs =>
    by_cases hx : x = '='
    · subst hx
      have hmem : ('=' : Char) ∈ '=' :: xs := List.mem_cons_self _ _
      rw [split_name_version, if_pos hmem]
      have : splitOnChar '=' ('=' :: xs) = [] :: splitOnChar '=' xs := by
        simp [splitOnChar]
      rw [this]
      cases hs : splitOnChar '=' xs with
      | nil => exact absurd hs (splitOnChar_ne_nil _ _)
      | cons y ys => simp
    · by_cases hm : ('=' : Char) ∈ xs
      · have hmem : ('=' : Char) ∈ x :: xs := List.mem_cons_of_mem _ hm
        rw [split_name_version, if_pos hmem]
        have h2 := splitOnChar_length_of_mem '=' xs hm
        have hsp : splitOnChar '=' (x :: xs)
            = match splitOnChar '=' xs with
              | [] => [[x]]
              | y :: ys => (x :: y) :: ys := by
          simp [splitOnChar, hx]
        cases hs : splitOnChar '=' xs with
        | nil => exact absurd hs (splitOnChar_ne_nil _ _)
        | cons y ys =>
          rw [hs] at hsp h2
          cases ys with
          | nil => simp at h2
          | cons z zs =>
            rw [hsp]
            simp [hx]
      · have hmem : ('=' : Char) ∉ x :: xs := by
          simp only [List.mem_cons, not_or]
          exact ⟨fun h => hx h.symm, hm⟩
        rw [split_name_version, if_neg hmem]
        simp [hx]

/-- C7: a token containing `=` is parsed the same way for every default
version (the in-token version wins, taken from the piece after the first
`=`), while a bare token receives the default version. -/
theorem split_name_version_default_precedence (s : Str) (d₁ d₂ : Option Str) :
    (('=' : Char) ∈ s →
      split_name_version s d₁ = split_name_version s d₂
      ∧ (split_name_version s d₁).version = (splitOnChar '=' s).tail.head?)
    ∧ (('=' : Char) ∉ s → (split_name_version s d₁).version = d₁) := by
  constructor
  · intro hmem
    have h2 := splitOnChar_length_of_mem '=' s hmem
    cases hs : splitOnChar '=' s with
    | nil => exact absurd hs (splitOnChar_ne_nil _ _)
    | cons y ys =>
      cases ys with
      | nil => rw [hs] at h2; simp at h2
      | cons z zs =>
        constructor
        · rw [split_name_version, split_name_version, if_pos hmem, if_pos hmem, hs]
        · rw [split_name_version, if_pos hmem, hs]
          rfl
  · intro hmem
    rw [split_name_version, if_neg hmem]

/-- C7 witness: `conda=4.8.0` parses identically under two different
defaults, with version `4.8.0` from the token, and the bare token `conda`
receives the default. -/
theorem split_name_version_default_precedence_witness :
    (('=' : Char) ∈ "conda=4.8.0".toList
      ∧ split_name_version "conda=4.8.0".toList (some "9.9".toList)
          = split_name_version "conda=4.8.0".toList none)
    ∧ (('=' : Char) ∉ "conda".toList
      ∧ (split_name_version "conda".toList (some "9.9".toList)).version
          = some "9.9".toList) :=
  ⟨⟨by decide,
    ((split_name_version_default_precedence "conda=4.8.0".toList
      (some "9.9".toList) none).1 (by decide)).1⟩,
   ⟨by decide,
    (split_name_version_default_precedence "conda".toList
      (some "9.9".toList) none).2 (by decide)⟩⟩

/-- Version comparison used by `Conda._is_present`:
`target_version.split('.') == installed_version.split('.')[:len(target_version.split('.'))]`,
i.e. only as many leading components as the target specifies are compared. -/
def version_matches (target_version installed_version : Str) : Bool :=
  let t := splitOnChar '.' target_version
  t == (splitOnChar '.' installed_version).take t.length

/-- `Conda._is_present(package, installed_packages, check_version)`:
`match = [p for p in installed_packages if p['name'] == target_name]`;
`if not match: return False`; `installed_package = match[0]`;
`if target_version and check_version: <compare split versions>`;
`return True`. -/
def is_present (package : PackageSpec) (installed_packages : List InstalledPackage)
    (check_version : Bool) : Bool :=
  match installed_packages.filter (fun p => p.name == package.name) with
  | [] => false
  | installed_package :: _ =>
    if truthy package.version && check_version then
      version_matches (package.version.getD []) installed_package.version
    else true

/-- Modelled from the spec (4.4 `isPresent`): true iff some installed
package shares the target name and, when `check_version` is set and the
target version is given, that package's version agrees with the target on
the first N dot-separated components, N being the number of components the
target specifies. -/
def is_present_spec (package : PackageSpec) (installed_packages : List InstalledPackage)
    (check_version : Bool) : Bool :=
  installed_packages.any (fun p =>
    p.name == package.name &&
    (if truthy package.version && check_version then
      version_matches (package.version.getD []) p.version
    else true))

/-- `Conda.get_absent_packages(target_packages, installed_packages, check_version)`. -/
def get_absent_packages (target_packages : List PackageSpec)
    (installed_packages : List InstalledPackage) (check_version : Bool) :
    List PackageSpec :=
  target_packages.filter
    (fun p => !is_present p installed_packages check_version)

/-- `Conda.get_present_packages(target_packages, installed_packages, check_version)`. -/
def get_present_packages (target_packages : List PackageSpec)
    (installed_packages : List InstalledPackage) (check_version : Bool) :
    List PackageSpec :=
  target_packages.filter
    (fun p => is_present p installed_packages check_version)

theorem is_present_spec_of_no_match (package : PackageSpec)
    (installed_packages : List InstalledPackage)
    (check_version : Bool)
    (h : ∀ q ∈ installed_packages, q.name ≠ package.name) :
    is_present_spec package installed_packages check_version = false := by
  simp only [is_present_spec, List.any_eq_false]
  intro q hq
  simp [h q hq]

/-- C1: on installed-package lists that report each name at most once (as
`conda list` does), `is_present` agrees with the specified predicate
`is_present_spec`: true iff some installed package shares the target name
and, when requested and given, matches the target version on its first N
dot components. -/
theorem is_present_eq_spec (package : PackageSpec)
    (installed_packages : List InstalledPackage) (check_version : Bool)
    (h : (installed_packages.map InstalledPackage.name).Nodup) :
    is_present package installed_packages check_version
      = is_present_spec package installed_packages check_version := by
  induction installed_packages with
  | nil => rfl
  | cons p ps ih =>
    simp only [List.map_cons, List.nodup_cons, List.mem_map] at h
    by_cases hn : p.name = package.name
    · have hps : ∀ q ∈ ps, q.name ≠ package.name := by
        intro q hq hqn
        exact h.1 ⟨q, hq, hqn.trans hn.symm⟩
      rw [is_present, List.filter_cons_of_pos (by simp [hn])]
      rw [is_present_spec, List.any_cons]
      have : ps.any (fun q =>
          q.name == package.name &&
          (if truthy package.version && check_version then
            version_matches (package.version.getD []) q.version
          else true)) = false := by
        rw [← is_present_spec]
        exact is_present_spec_of_no_match _ _ _ hps
      rw [this]
      simp [hn]
    · have hb : (p.name == package.name) = false := by
        simp [hn]
      rw [is_present, List.filter_cons_of_neg (by simp [hn]), ← is_present]
      rw [is_present_spec, List.any_cons, hb]
      simp only [Bool.false_and, Bool.false_or]
      rw [ih h.2, is_present_spec]

/-- C1 witness: the specification's own example, target version `1.2`
against installed `1.2.7` with version checking on. -/
theorem is_present_eq_spec_witness :
    ((([⟨"x".toList, "1.2.7".toList⟩] : List InstalledPackage).map
        InstalledPackage.name).Nodup
    ∧ is_present ⟨"x".toList, some "1.2".toList, none⟩
        [⟨"x".toList, "1.2.7".toList⟩] true
      = is_present_spec ⟨"x".toList, some "1.2".toList, none⟩
        [⟨"x".toList, "1.2.7".toList⟩] true)
    ∧ is_present ⟨"x".toList, some "1.2".toList, none⟩
        [⟨"x".toList, "1.2.7".toList⟩] true = true
    ∧ is_present ⟨"x".toList, some "1.3".toList, none⟩
        [⟨"x".toList, "1.2.7".toList⟩] true = false :=
  ⟨⟨by decide,
    is_present_eq_spec ⟨"x".toList, some "1.2".toList, none⟩
      [⟨"x".toList, "1.2.7".toList⟩] true (by decide)⟩,
   by decide, by decide⟩

/-- C2: for any fixed `check_version`, `get_absent_packages` and
`get_present_packages` partition the target list exactly — each target
lands in exactly one of the two outputs (counted with multiplicity), and
both outputs are sublists of the targets, preserving their relative
order. -/
theorem absent_present_partition (target_packages : List PackageSpec)
    (installed_packages : List InstalledPackage) (check_version : Bool) :
    (∀ q : PackageSpec,
      (get_absent_packages target_packages installed_packages check_version).count q
        + (get_present_packages target_packages installed_packages check_version).count q
        = target_packages.count q)
    ∧ (get_absent_packages target_packages installed_packages check_version).Sublist
        target_packages
    ∧ (get_present_packages target_packages installed_packages check_version).Sublist
        target_packages := by
  refine ⟨fun q => ?_, List.filter_sublist _, List.filter_sublist _⟩
  induction target_packages with
  | nil => rfl
  | cons p ps ih =>
    simp only [get_absent_packages, get_present_packages, List.filter_cons] at ih ⊢
    cases hp : is_present p installed_packages check_version <;>
      simp [hp, List.count_cons] <;> omega

/-- C10: when version checking is on and the target has a (non-empty)
version, `is_present` consults only the first installed package whose name
matches; if that first match fails the prefix comparison the result is
false, regardless of any later same-named entries. -/
theorem is_present_first_match_only (package : PackageSpec)
    (installed_packages : List InstalledPackage) (q : InstalledPackage) (v : Str)
    (hv : package.version = some v) (hne : v ≠ [])
    (hq : (installed_packages.filter (fun p => p.name == package.name)).head?
        = some q)
    (hfail : version_matches v q.version = false) :
    is_present package installed_packages true = false := by
  rw [is_present]
  cases hf : installed_packages.filter (fun p => p.name == package.name) with
  | nil => rfl
  | cons r rs =>
    rw [hf] at hq
    simp only [List.head?_cons, Option.some_inj] at hq
    subst hq
    have ht : truthy package.version = true := by
      rw [hv, truthy]
      simpa using hne
    rw [ht]
    simpa [hv] using hfail

/-- C10 witness: with two installed entries named `x`, the first (version
`2.0`) fails the prefix check against target `1.2`, so `is_present` is
false even though the second entry (`1.2.7`) would satisfy it. -/
theorem is_present_first_match_only_witness :
    version_matches "1.2".toList "1.2.7".toList = true
    ∧ is_present ⟨"x".toList, some "1.2".toList, none⟩
        [⟨"x".toList, "2.0".toList⟩, ⟨"x".toList, "1.2.7".toList⟩] true = false :=
  ⟨by decide,
   is_present_first_match_only ⟨"x".toList, some "1.2".toList, none⟩
     [⟨"x".toList, "2.0".toList⟩, ⟨"x".toList, "1.2.7".toList⟩]
     ⟨"x".toList, "2.0".toList⟩ "1.2".toList rfl (by decide) (by decide)
     (by decide)⟩

/-- The `state` module parameter: one of `present`, `absent`, `latest`. -/
inductive State
  | present
  | absent
  | latest
deriving DecidableEq

/-- The module parameters consumed by `run_module`, including Ansible's
check (dry-run) mode flag. -/
structure Params where
  names : List Str
  state : State
  version : Option Str
  channels : List Str
  environment : Option Str
  check_mode : Bool

/-- The responses of the external conda tool for one run: the environment
list, filesystem directory queries, the installed packages, and the
`actions` fields reported by each mutating subcommand. -/
structure World where
  envs : List Str
  is_dir : Str → Bool
  installed : List InstalledPackage
  install_actions : List Str
  remove_actions : List Str
  update_dry_actions : List Str
  update_actions : List Str

/-- One external conda invocation, as issued by the module. -/
inductive Cmd
  | create_env (env : Str)
  | list_envs
  | list_packages
  | install (pkg_strs : List Str)
  | remove (names : List Str)
  | update (names : List Str) (dry_run : Bool)
deriving DecidableEq

/-- The module's result dict: `{changed, actions, msg?}`. -/
structure ModuleResult where
  changed : Bool
  actions : List Str
  msg : Option Str
deriving DecidableEq

/-- The package token built by `Conda.install_packages` for one spec:
`pkg_str = name; if version: pkg_str += '=' + version;`
`if build: pkg_str += '=' + build` (Python truthiness, so empty strings
are not appended). -/
def pkg_str (package : PackageSpec) : Str :=
  let s1 := package.name
  let s2 := if truthy package.version then s1 ++ '=' :: package.version.getD [] else s1
  if truthy package.build then s2 ++ '=' :: package.build.getD [] else s2

/-- `Conda.check_env(env)`: `'base'` always exists; a name containing the
path separator is checked as a directory on the filesystem; otherwise the
environment list is fetched (`conda env list`, the one external call) and
searched for an exact match. Returns the boolean together with the
external commands issued. -/
def check_env (env : Str) (w : World) : Bool × List Cmd :=
  if env = "base".toList then (true, [])
  else if ('/' : Char) ∈ env then (w.is_dir env, [])
  else (w.envs.any (fun e => e == env), [Cmd.list_envs])

/-- The package phase of `run_module` (everything after the environment
handling): parse the target tokens, list installed packages, then branch
on `state`, gating every mutating call on `not module.check_mode` exactly
as the source does. Returns the result dict and the trace of external
commands, appended to `cmds`. -/
def run_packages (p : Params) (w : World) (r : ModuleResult) (cmds : List Cmd) :
    ModuleResult × List Cmd :=
  let target_packages := p.names.map (fun n => split_name_version n p.version)
  let installed_packages := w.installed
  let cmds := cmds ++ [Cmd.list_packages]
  match p.state with
  | State.present =>
    let absent_packages := get_absent_packages target_packages installed_packages true
    if absent_packages.isEmpty then (r, cmds)
    else if p.check_mode then ({ r with changed := true }, cmds)
    else ({ r with changed := true, actions := r.actions ++ w.install_actions },
          cmds ++ [Cmd.install (absent_packages.map pkg_str)])
  | State.absent =>
    let present_packages := get_present_packages target_packages installed_packages false
    if present_packages.isEmpty then (r, cmds)
    else
      let names := present_packages.map PackageSpec.name
      if p.check_mode then ({ r with changed := true }, cmds)
      else ({ r with changed := true, actions := r.actions ++ w.remove_actions },
            cmds ++ [Cmd.remove names])
  | State.latest =>
    let absent_packages := get_absent_packages target_packages installed_packages false
    let present_packages := get_present_packages target_packages installed_packages false
    let step :=
      if absent_packages.isEmpty then (r, cmds)
      else if p.check_mode then ({ r with changed := true }, cmds)
      else ({ r with changed := true, actions := r.actions ++ w.install_actions },
            cmds ++ [Cmd.install (absent_packages.map pkg_str)])
    let r := step.1
    let cmds := step.2
    if present_packages.isEmpty then (r, cmds)
    else
      let names := present_packages.map PackageSpec.name
      let cmds := cmds ++ [Cmd.update names true]
      let dry_actions := w.update_dry_actions
      if dry_actions.isEmpty then (r, cmds)
      else if p.check_mode then ({ r with changed := true }, cmds)
      else ({ r with changed := true, actions := r.actions ++ w.update_actions },
            cmds ++ [Cmd.update names false])

/-- `run_module()`: seed `result = {changed: False, actions: []}`; if an
environment is named and does not exist, either exit immediately with a
message (state absent) or create it and mark changed (note: the creation
is not gated on check mode in the source); then run the package phase. -/
def run_module (p : Params) (w : World) : ModuleResult × List Cmd :=
  let r : ModuleResult := { changed := false, actions := [], msg := none }
  match p.environment with
  | some env =>
    let ce := check_env env w
    if ce.1 then run_packages p w r ce.2
    else if p.state = State.absent then
      ({ r with msg := some (env ++ " is already absent".toList) }, ce.2)
    else
      run_packages p w { r with changed := true } (ce.2 ++ [Cmd.create_env env])
  | none => run_packages p w r []

theorem check_env_trace (env : Str) (w : World) :
    (check_env env w).2 = [] ∨ (check_env env w).2 = [Cmd.list_envs] := by
  rw [check_env]
  by_cases h1 : env = "base".toList
  · rw [if_pos h1]
    exact Or.inl rfl
  · rw [if_neg h1]
    by_cases h2 : ('/' : Char) ∈ env
    · rw [if_pos h2]
      exact Or.inl rfl
    · rw [if_neg h2]
      exact Or.inr rfl

/-- C9: `check_env` implements the specified existence policy: `base`
always exists and is answered without any external call; a name containing
the path separator is answered by filesystem directory presence alone; any
other name is answered by an exact match against the fetched environment
list, via one `conda env list` invocation. -/
theorem check_env_policy (env : Str) (w : World) :
    ((check_env env w).1 = true ↔
      (env = "base".toList
        ∨ (('/' : Char) ∈ env ∧ w.is_dir env = true)
        ∨ (env ≠ "base".toList ∧ ('/' : Char) ∉ env ∧ env ∈ w.envs)))
    ∧ (env = "base".toList → (check_env env w).2 = [])
    ∧ (('/' : Char) ∈ env → (check_env env w).2 = [])
    ∧ (env ≠ "base".toList → ('/' : Char) ∉ env →
        (check_env env w).2 = [Cmd.list_envs]) := by
  have hbase : ('/' : Char) ∉ "base".toList := by decide
  rw [check_env]
  by_cases h1 : env = "base".toList
  · subst h1
    rw [if_pos rfl]
    refine ⟨by simp, fun _ => rfl, fun hc => absurd hc hbase, fun hc _ => absurd rfl hc⟩
  · rw [if_neg h1]
    by_cases h2 : ('/' : Char) ∈ env
    · rw [if_pos h2]
      refine ⟨⟨fun hd => Or.inr (Or.inl ⟨h2, hd⟩), ?_⟩,
        fun hc => absurd hc h1, fun _ => rfl, fun _ hc => absurd h2 hc⟩
      rintro (hc | ⟨_, hd⟩ | ⟨_, hc, _⟩)
      · exact absurd hc h1
      · exact hd
      · exact absurd h2 hc
    · rw [if_neg h2]
      refine ⟨?_, fun hc => absurd hc h1, fun hc => absurd hc h2, fun _ _ => rfl⟩
      simp only [List.any_eq_true, beq_iff_eq]
      constructor
      · rintro ⟨e, he, rfl⟩
        exact Or.inr (Or.inr ⟨h1, h2, he⟩)
      · rintro (hc | ⟨hc, _⟩ | ⟨_, _, he⟩)
        · exact absurd hc h1
        · exact absurd hc h2
        · exact ⟨env, he, rfl⟩

/-- C9 witness: in a world with an empty environment list, `base` is
reported as existing with no external call, and a plain name is resolved
through the environment list. -/
theorem check_env_policy_witness :
    ((check_env "base".toList
        ⟨[], fun _ => false, [], [], [], [], []⟩).2 = []
      ∧ (check_env "base".toList
        ⟨[], fun _ => false, [], [], [], [], []⟩).1 = true)
    ∧ (check_env "envA".toList
        ⟨[], fun _ => false, [], [], [], [], []⟩).2 = [Cmd.list_envs] :=
  ⟨⟨(check_env_policy "base".toList ⟨[], fun _ => false, [], [], [], [], []⟩).2.1 rfl,
    (check_env_policy "base".toList
      ⟨[], fun _ => false, [], [], [], [], []⟩).1.mpr (Or.inl rfl)⟩,
   (check_env_policy "envA".toList
      ⟨[], fun _ => false, [], [], [], [], []⟩).2.2.2 (by decide) (by decide)⟩

/-- C8: with an environment named, state `absent`, and the environment not
existing, the run short-circuits to a no-op success: changed is false, the
actions list is empty, the message is set, and neither an environment
creation nor a remove command is issued. -/
theorem absent_missing_env_noop (p : Params) (w : World) (env : Str)
    (henv : p.environment = some env)
    (hst : p.state = State.absent)
    (hex : (check_env env w).1 = false) :
    (run_module p w).1.changed = false
    ∧ (run_module p w).1.actions = []
    ∧ (run_module p w).1.msg = some (env ++ " is already absent".toList)
    ∧ (∀ e, Cmd.create_env e ∉ (run_module p w).2)
    ∧ (∀ ns, Cmd.remove ns ∉ (run_module p w).2) := by
  have hrm : run_module p w
      = ({ changed := false, actions := [],
           msg := some (env ++ " is already absent".toList) },
         (check_env env w).2) := by
    simp [run_module, henv, hex, hst]
  rw [hrm]
  rcases check_env_trace env w with h | h <;>
    simp [h]

/-- C8 witness: the specification's scenario, environment `/opt/R` absent
from the filesystem with state `absent`. -/
theorem absent_missing_env_noop_witness :
    ((check_env "/opt/R".toList
        ⟨[], fun _ => false, [], [], [], [], []⟩).1 = false
    ∧ (run_module
        ⟨["r-base".toList], State.absent, none, [], some "/opt/R".toList, false⟩
        ⟨[], fun _ => false, [], [], [], [], []⟩).1.changed = false)
    ∧ (run_module
        ⟨["r-base".toList], State.absent, none, [], some "/opt/R".toList, false⟩
        ⟨[], fun _ => false, [], [], [], [], []⟩).1.msg
      = some ("/opt/R".toList ++ " is already absent".toList) :=
  ⟨⟨rfl,
    (absent_missing_env_noop
      ⟨["r-base".toList], State.absent, none, [], some "/opt/R".toList, false⟩
      ⟨[], fun _ => false, [], [], [], [], []⟩ "/opt/R".toList rfl rfl rfl).1⟩,
   (absent_missing_env_noop
      ⟨["r-base".toList], State.absent, none, [], some "/opt/R".toList, false⟩
      ⟨[], fun _ => false, [], [], [], [], []⟩ "/opt/R".toList rfl rfl rfl).2.2.1⟩

/-- C3: the one mutating call not gated on check mode. With check mode on,
a named environment that does not exist, and state `present`, the run
still issues the environment-creation command: check mode is not free of
mutating external calls, contradicting the dry-run claim. -/
theorem check_mode_still_creates_env :
    (⟨["numpy".toList], State.present, none, [], some "envA".toList, true⟩
        : Params).check_mode = true
    ∧ Cmd.create_env "envA".toList ∈
        (run_module
          ⟨["numpy".toList], State.present, none, [], some "envA".toList, true⟩
          ⟨[], fun _ => false, [], [], [], [], []⟩).2 := by
  constructor
  · rfl
  · decide

theorem run_module_latest_decomp (p : Params) (w : World)
    (hst : p.state = State.latest) :
    ∃ r0 pre, run_module p w = run_packages p w r0 pre
      ∧ (∀ c ∈ pre, c = Cmd.list_envs ∨ ∃ e, c = Cmd.create_env e)
      ∧ (p.environment = none → r0.changed = false ∧ pre = []) := by
  rw [run_module]
  cases he : p.environment with
  | none =>
    exact ⟨_, [], rfl, by simp, fun _ => ⟨rfl, rfl⟩⟩
  | some env =>
    have hso : ¬ p.state = State.absent := by
      rw [hst]
      exact fun h => State.noConfusion h
    by_cases hex : (check_env env w).1
    · refine ⟨{ changed := false, actions := [], msg := none },
        (check_env env w).2, by simp [hex], ?_, by simp [he]⟩
      rcases check_env_trace env w with h | h <;> simp [h]
    · refine ⟨{ changed := true, actions := [], msg := none },
        (check_env env w).2 ++ [Cmd.create_env env],
        by simp [hex, hso], ?_, by simp [he]⟩
      intro c hc
      rcases List.mem_append.mp hc with h | h
      · rcases check_env_trace env w with ht | ht <;> rw [ht] at h
        · simp at h
        · exact Or.inl (List.mem_singleton.mp h)
      · exact Or.inr ⟨env, List.mem_singleton.mp h⟩

theorem run_packages_latest (p : Params) (w : World) (r : ModuleResult)
    (cs : List Cmd) (tgt abs_pkgs pres_pkgs : List PackageSpec) (nms : List Str)
    (hst : p.state = State.latest) (hcm : p.check_mode = false)
    (htgt : tgt = p.names.map (fun n => split_name_version n p.version))
    (habs : abs_pkgs = get_absent_packages tgt w.installed false)
    (hpres : pres_pkgs = get_present_packages tgt w.installed false)
    (hnms : nms = pres_pkgs.map PackageSpec.name) :
    run_packages p w r cs
      = ({ changed := r.changed || !abs_pkgs.isEmpty
             || (!pres_pkgs.isEmpty && !w.update_dry_actions.isEmpty),
           actions := r.actions
             ++ (if abs_pkgs.isEmpty then [] else w.install_actions)
             ++ (if pres_pkgs.isEmpty || w.update_dry_actions.isEmpty then []
                 else w.update_actions),
           msg := r.msg },
         cs ++ [Cmd.list_packages]
           ++ (if abs_pkgs.isEmpty then []
               else [Cmd.install (abs_pkgs.map pkg_str)])
           ++ (if pres_pkgs.isEmpty then []
               else Cmd.update nms true ::
                 (if w.update_dry_actions.isEmpty then []
                  else [Cmd.update nms false]))) := by
  subst htgt habs hpres hnms
  simp only [run_packages, hst, hcm]
  cases h1 : (get_absent_packages
      (p.names.map (fun n => split_name_version n p.version))
      w.installed false).isEmpty <;>
    cases h2 : (get_present_packages
      (p.names.map (fun n => split_name_version n p.version))
      w.installed false).isEmpty <;>
    cases h3 : w.update_dry_actions.isEmpty <;>
    simp [h1, h2, h3]

/-- C4: with state `latest` and check mode off, the targets absent by the
name-only check are installed; the name-only-present targets are first
update-checked with a dry run; a real (non-dry) update command appears in
the trace only when there were present targets and the dry run reported a
nonempty actions list; and with no environment handling, no absent
targets, and an empty dry-run report, `changed` stays false. -/
theorem latest_two_phase (p : Params) (w : World)
    (tgt abs_pkgs pres_pkgs : List PackageSpec) (nms : List Str)
    (hst : p.state = State.latest) (hcm : p.check_mode = false)
    (htgt : tgt = p.names.map (fun n => split_name_version n p.version))
    (habs : abs_pkgs = get_absent_packages tgt w.installed false)
    (hpres : pres_pkgs = get_present_packages tgt w.installed false)
    (hnms : nms = pres_pkgs.map PackageSpec.name) :
    (abs_pkgs ≠ [] →
      Cmd.install (abs_pkgs.map pkg_str) ∈ (run_module p w).2)
    ∧ (pres_pkgs ≠ [] → Cmd.update nms true ∈ (run_module p w).2)
    ∧ (∀ ns, Cmd.update ns false ∈ (run_module p w).2 →
        pres_pkgs ≠ [] ∧ w.update_dry_actions ≠ [])
    ∧ (p.environment = none → abs_pkgs = [] → w.update_dry_actions = [] →
        (run_module p w).1.changed = false) := by
  obtain ⟨r0, pre, heq, hpre, hnone⟩ := run_module_latest_decomp p w hst
  have hB := run_packages_latest p w r0 pre tgt abs_pkgs pres_pkgs nms
    hst hcm htgt habs hpres hnms
  rw [heq, hB]
  refine ⟨fun hab => ?_, fun hpr => ?_, fun ns hmem => ?_, fun he hab hdry => ?_⟩
  · have h1 : abs_pkgs.isEmpty = false := by
      cases h : abs_pkgs.isEmpty
      · rfl
      · exact absurd (List.isEmpty_iff.mp h) hab
    simp [h1]
  · have h2 : pres_pkgs.isEmpty = false := by
      cases h : pres_pkgs.isEmpty
      · rfl
      · exact absurd (List.isEmpty_iff.mp h) hpr
    simp [h2]
  · simp only [List.mem_append] at hmem
    rcases hmem with ((hm | hm) | hm) | hm
    · rcases hpre _ hm with h | ⟨e, h⟩ <;> exact Cmd.noConfusion h
    · exact absurd (List.mem_singleton.mp hm) (fun h => Cmd.noConfusion h)
    · by_cases h1 : abs_pkgs.isEmpty <;> simp [h1] at hm
    · by_cases h2 : pres_pkgs.isEmpty
      · simp [h2] at hm
      · by_cases h3 : w.update_dry_actions.isEmpty
        · simp [h2, h3] at hm
        · refine ⟨fun hc => h2 (by simp [hc]), fun hc => h3 (by simp [hc])⟩
  · obtain ⟨hr0, -⟩ := hnone he
    have h1 : abs_pkgs.isEmpty = true := by simp [hab]
    have h3 : w.update_dry_actions.isEmpty = true := by simp [hdry]
    simp [hr0, h1, h3]

/-- C4 witness: the specification's scenario — state `latest`, target
`pandas`, installed `pandas 1.0`, dry-run update reporting no actions: the
dry-run update is issued, no real update is issued, and changed is
false. -/
theorem latest_two_phase_witness :
    (run_module
        ⟨["pandas".toList], State.latest, none, [], none, false⟩
        ⟨[], fun _ => false, [⟨"pandas".toList, "1.0".toList⟩], [], [], [], []⟩
      ).1.changed = false
    ∧ Cmd.update ["pandas".toList] true ∈
        (run_module
          ⟨["pandas".toList], State.latest, none, [], none, false⟩
          ⟨[], fun _ => false, [⟨"pandas".toList, "1.0".toList⟩], [], [], [], []⟩).2
    ∧ Cmd.update ["pandas".toList] false ∉
        (run_module
          ⟨["pandas".toList], State.latest, none, [], none, false⟩
          ⟨[], fun _ => false, [⟨"pandas".toList, "1.0".toList⟩], [], [], [], []⟩).2 := by
  have h := latest_two_phase
    ⟨["pandas".toList], State.latest, none, [], none, false⟩
    ⟨[], fun _ => false, [⟨"pandas".toList, "1.0".toList⟩], [], [], [], []⟩
    _ _ _ _ rfl rfl rfl rfl rfl rfl
  refine ⟨h.2.2.2 rfl (by decide) rfl, ?_, fun hm => ?_⟩
  · have := h.2.1 (by decide)
    simpa using this
  · exact absurd (h.2.2.1 _ hm).2 (by simp)

end CondaMod
